import Mathlib

/-!
Verification of the ChatbotCore retrieval-augmented QA service
(`vector_store.py`, `app.py`) against its natural-language specification.

The external collaborators the spec declares opaque (the embedding model,
the LLM, the Chroma similarity index internals, the web-search provider)
are modelled as abstract parameters or as state the repository code reads
and writes; the repository's own control flow is embedded faithfully.
-/

namespace ChatbotCore

/-- A chunk/document as stored and retrieved: `page_content` plus the
`source` metadata entry (`none` models a missing `source` key). -/
structure Chunk where
  page_content : List Char
  source : Option String
  deriving DecidableEq, Repr

/-- The on-disk state of the persist directory, as `get_vectorstore`
distinguishes it: no directory at all; a directory without the
`chroma.sqlite3` marker file; a marker present but unreadable/corrupt
state; or a marker present with a loadable index holding `docs`. -/
inductive PersistState where
  | absent
  | noMarker
  | corrupt
  | valid (docs : List Chunk)
  deriving DecidableEq, Repr

/-- `os.path.exists(os.path.join(persist_directory, "chroma.sqlite3"))`:
the marker file is present exactly in the `corrupt` and `valid` states. -/
def markerExists : PersistState → Bool
  | .corrupt => true
  | .valid _ => true
  | _ => false

/-- `os.path.exists(persist_directory)`: the directory itself exists in
every state but `absent`. -/
def dirExists : PersistState → Bool
  | .absent => false
  | _ => true

/-- Errors raised by `get_vectorstore` (both are `ValueError` in the
source; the spec names them `EmptyCorpusError` and `IndexLoadError`). -/
inductive VSError where
  | emptyCorpus
  | indexLoadError
  deriving DecidableEq, Repr

/-- A Chroma vector store handle: the collection of stored chunks.
Embedding vectors are opaque per the spec, so the handle is determined
by the chunk set it holds. -/
structure Chroma where
  docs : List Chunk
  deriving DecidableEq, Repr

/-- Filesystem operations `get_vectorstore` can perform on the way to
publishing an index. `rename` is the atomic-publish operation the spec
demands; it is part of the vocabulary so its absence from the code's
trace can be stated. -/
inductive FsOp where
  | rmtree (path : String)
  | makedirs (path : String)
  | writeIndexFiles (path : String)
  | rename (src dst : String)
  deriving DecidableEq, Repr

/-- `get_vectorstore(splits, embedding_model, persist_directory)`
(vector_store.py lines 70-108), instrumented with the trace of
filesystem operations it performs. Branch structure from the source:
`needs_rebuild = not os.path.exists(db_path)`; in the rebuild branch the
empty-splits check raises before anything is written, then any existing
directory is removed, the directory is recreated, and
`Chroma.from_documents(..., persist_directory=persist_directory)` writes
the index directly into `persist_directory`; in the load branch
`Chroma(persist_directory=...)` is wrapped in try/except re-raised as a
load error, and nothing is written. -/
def get_vectorstore (splits : List Chunk) (persist_directory : String)
    (st : PersistState) :
    Except VSError Chroma × PersistState × List FsOp :=
  match st with
  | .valid docs => (.ok ⟨docs⟩, .valid docs, [])
  | .corrupt => (.error .indexLoadError, .corrupt, [])
  | .absent =>
      if splits.isEmpty then
        (.error .emptyCorpus, .absent, [])
      else
        (.ok ⟨splits⟩, .valid splits,
          [.makedirs persist_directory, .writeIndexFiles persist_directory])
  | .noMarker =>
      if splits.isEmpty then
        (.error .emptyCorpus, .noMarker, [])
      else
        (.ok ⟨splits⟩, .valid splits,
          [.rmtree persist_directory, .makedirs persist_directory,
           .writeIndexFiles persist_directory])

/-- Similarity search on a store: the opaque ranking function `rank`
(query ↦ ordering of the stored chunks, most similar first) stands for
the embedding-based metric; `k` results are returned. Search output is a
function of the handle's chunk set, the ranking, the query and `k`. -/
def similarity_search (c : Chroma) (rank : String → List Chunk → List Chunk)
    (q : String) (k : Nat) : List Chunk :=
  (rank q c.docs).take k

/-- Does `op` write index content at `path`? (`makedirs` creates the
directory but writes no index content.) -/
def FsOp.writesIndexAt (path : String) : FsOp → Bool
  | .writeIndexFiles p => p == path
  | _ => false

/-- Is `op` a rename publishing into `path`? -/
def FsOp.isRenameTo (path : String) : FsOp → Bool
  | .rename _ dst => dst == path
  | _ => false

/-- The atomic-publish discipline the claim asserts of a build trace:
index content is never written directly at `persist_directory`, and the
trace contains a rename that publishes into it. -/
def atomicPublish (ops : List FsOp) (persist_directory : String) : Prop :=
  (ops.all fun op => !(op.writesIndexAt persist_directory)) = true ∧
  (ops.any fun op => op.isRenameTo persist_directory) = true

/-! ## Chunker (spec §4.1) and document ingestion (vector_store.py) -/

/-- Modelled from the spec: the Chunker of §4.1. The repository
delegates splitting to the external `RecursiveCharacterTextSplitter`
library, whose code is not part of this repository, so the algorithm is
taken from the spec's governing invariant: windows of at most
`chunk_size` characters, each subsequent window starting
`chunk_size − chunk_overlap` characters after the previous window's
start, so the trailing `chunk_overlap` characters of a window reappear
as the leading characters of the next; empty documents produce zero
chunks. The `chunk_size ≤ chunk_overlap` guard only makes the recursion
total; the spec's parameter contract (`0 ≤ overlap < chunk_size`)
excludes it. -/
def split_text (chunk_size chunk_overlap : Nat) (s : List Char) :
    List (List Char) :=
  if h : s.length ≤ chunk_size ∨ chunk_size ≤ chunk_overlap then
    if s.isEmpty then [] else [s]
  else
    s.take chunk_size ::
      split_text chunk_size chunk_overlap (s.drop (chunk_size - chunk_overlap))
termination_by s.length
decreasing_by
  simp only [not_or, not_le] at h
  simp only [List.length_drop]
  omega

/-- Concatenating chunk texts with their declared overlaps removed:
the first chunk in full, every later chunk minus its leading
`chunk_overlap` characters. -/
def reassemble (chunk_overlap : Nat) : List (List Char) → List Char
  | [] => []
  | c :: rest => c ++ (rest.map fun d => d.drop chunk_overlap).flatten

/-- A raw file of the data folder as ingestion sees it: its filename and
either its text content or `none` when opening/reading it fails with an
I/O error. -/
structure RawFile where
  name : String
  content : Option (List Char)
  deriving DecidableEq, Repr

/-- A loaded document (vector_store.py lines 46-51): its full text and
the `source` metadata set to the joined path. -/
structure SourceDoc where
  page_content : List Char
  source : String
  deriving DecidableEq, Repr

/-- Python's `s.endswith(suffix)`: is `suffix` a suffix of `s`'s
character sequence? -/
def strEndsWith (s suffix : String) : Bool :=
  suffix.toList.isSuffixOf s.toList

/-- The ingestion loop of `load_and_process_documents`
(vector_store.py lines 39-54): files whose name ends in `.txt` are
opened; a successful read appends a `Document` with the file's path as
`source`; a read failure records a warning message and continues with
the next file; other files are ignored. One `ingestStep` is one iteration of
the loop; the accumulated documents and warnings stay in file order. -/
def ingestStep (data_folder : String) (acc : List SourceDoc × List String)
    (f : RawFile) : List SourceDoc × List String :=
  if strEndsWith f.name ".txt" then
    match f.content with
    | some c =>
        (acc.1 ++ [⟨c, data_folder ++ "/" ++ f.name⟩], acc.2)
    | none =>
        (acc.1, acc.2 ++ ["Error reading file " ++ data_folder ++ "/" ++ f.name])
  else acc

/-- The whole ingestion loop: fold `ingestStep` over the folder's files,
starting from no documents and no warnings. -/
def ingestFiles (data_folder : String) (files : List RawFile) :
    List SourceDoc × List String :=
  files.foldl (ingestStep data_folder) ([], [])

/-- `text_splitter.split_documents(documents)`: each document is split
into chunks that inherit its `source` metadata, documents in order. -/
def split_documents (chunk_size chunk_overlap : Nat)
    (docs : List SourceDoc) : List Chunk :=
  docs.flatMap fun d =>
    (split_text chunk_size chunk_overlap d.page_content).map
      fun c => ⟨c, some d.source⟩

/-- `load_and_process_documents(data_folder, chunk_size, chunk_overlap)`
(vector_store.py lines 9-68). `files = none` models a missing data
folder or an `os.listdir` failure (both return `[]`); otherwise the
folder's files are ingested and, when any document loaded, split. -/
def load_and_process_documents (data_folder : String)
    (files : Option (List RawFile)) (chunk_size chunk_overlap : Nat) :
    List Chunk :=
  match files with
  | none => []
  | some fs =>
      if fs.isEmpty then []
      else
        let documents := (ingestFiles data_folder fs).1
        if documents.isEmpty then []
        else split_documents chunk_size chunk_overlap documents

/-! ## app.py: retrieval tool, request conversion, answer extraction -/

/-- `os.path.basename`: the part of the path after the last `/`. -/
def basename (p : String) : String :=
  (p.splitOn "/").getLastD ""

/-- The sentinel returned when search yields no results
(app.py line 54). -/
def noResultsSentinel : String := "No relevant documents found."

/-- One provenance-tagged block of `retrieve_documents`
(app.py lines 57-58): the basename of the `source` metadata entry
(`"N/A"` when the key is missing), a separator line, then the raw chunk
text. -/
def formatBlock (doc : Chunk) : String :=
  "Source: " ++ basename (doc.source.getD "N/A") ++ "\n---\n"
    ++ String.mk doc.page_content

/-- `retrieve_documents(query)` (app.py lines 50-59). The retriever
produced by `vectorstore.as_retriever(...).invoke` is the opaque search
capability `retriever`; the source builds the `formatted` list by
appending inside a loop and joins it with a blank-line separator. -/
def retrieve_documents (retriever : String → List Chunk) (query : String) :
    String :=
  let results := retriever query
  if results.isEmpty then
    noResultsSentinel
  else
    let formatted := results.foldl (fun acc doc => acc ++ [formatBlock doc]) []
    String.intercalate "\n\n" formatted

/-- An inbound API message (`ChatMessage`): an arbitrary role string and
content. -/
structure ChatMessage where
  role : String
  content : String
  deriving DecidableEq, Repr

/-- A LangChain message as the agent consumes and produces it: its
concrete class (Human/AI/Tool/System) and its `content` attribute. -/
inductive LCMessage where
  | human (content : String)
  | ai (content : String)
  | tool (content : String)
  | system (content : String)
  deriving DecidableEq, Repr

/-- The `content` attribute of a LangChain message. -/
def LCMessage.content : LCMessage → String
  | .human c => c
  | .ai c => c
  | .tool c => c
  | .system c => c

/-- Is this message an `AIMessage` (role assistant)? -/
def LCMessage.isAssistant : LCMessage → Bool
  | .ai _ => true
  | _ => false

/-- The request-to-conversation conversion loop (app.py lines 98-103):
`role == 'user'` appends a `HumanMessage`, `role == 'assistant'` appends
an `AIMessage`, anything else appends nothing; no error is raised. -/
def convertStep (acc : List LCMessage) (msg : ChatMessage) : List LCMessage :=
  if msg.role = "user" then acc ++ [.human msg.content]
  else if msg.role = "assistant" then acc ++ [.ai msg.content]
  else acc

/-- The whole conversion loop: fold `convertStep` over the request's
messages, starting from the empty list. -/
def convertMessages (reqMessages : List ChatMessage) : List LCMessage :=
  reqMessages.foldl convertStep []

/-- The per-element conversion the loop realizes: `user`/`assistant`
map to a message, every other role to nothing. -/
def convertOne (msg : ChatMessage) : Option LCMessage :=
  if msg.role = "user" then some (.human msg.content)
  else if msg.role = "assistant" then some (.ai msg.content)
  else none

/-- `isinstance(msg, BaseMessage) and hasattr(msg, "content")`
(app.py line 111): every LangChain message class derives from
`BaseMessage` and `BaseMessage` always defines `content`, so on the
agent's message list this guard holds identically. -/
def isBaseMessageWithContent (_ : LCMessage) : Bool := true

/-- The canonical fallback answer (app.py line 114). -/
def fallbackAnswer : String := "Không tìm thấy phản hồi phù hợp."

/-- The `for msg in reversed(result["messages"])` scan (app.py lines
110-112): the first message of the reversed list passing the guard is
returned. -/
def answerScan : List LCMessage → Option String
  | [] => none
  | msg :: rest =>
      if isBaseMessageWithContent msg then some msg.content
      else answerScan rest

/-- The answer the `/chat` endpoint returns for the agent's final
message list (app.py lines 110-114): the scan over the reversed list,
falling back to the canonical string when it finds nothing. -/
def chatAnswer (resultMessages : List LCMessage) : String :=
  match answerScan resultMessages.reverse with
  | some a => a
  | none => fallbackAnswer

/-- The answer as the spec's §4.5 DONE state describes it: the content
of the last message with role assistant and non-empty content, else the
canonical fallback. Stated from the spec's words, for comparison with
`chatAnswer`. -/
def specDoneAnswer (resultMessages : List LCMessage) : String :=
  match (resultMessages.filter
      fun m => m.isAssistant && !m.content.isEmpty).getLast? with
  | some m => m.content
  | none => fallbackAnswer

/-! ## Chunker lemmas -/

theorem split_text_head (cs co : Nat) (hco : co < cs) (s : List Char)
    (hs : s ≠ []) : (split_text cs co s).head? = some (s.take cs) := by
  rw [split_text]
  by_cases h : s.length ≤ cs
  · rw [dif_pos (Or.inl h)]
    simp [hs, List.take_of_length_le h]
  · rw [dif_neg (by omega)]
    rfl

theorem split_text_length_le_aux (cs co : Nat) (hco : co < cs) :
    ∀ (n : Nat) (s : List Char), s.length ≤ n →
      ∀ c ∈ split_text cs co s, c.length ≤ cs := by
  intro n
  induction n with
  | zero =>
      intro s hs c hc
      have hnil : s = [] := List.eq_nil_of_length_eq_zero (by omega)
      subst hnil
      rw [split_text] at hc
      simp at hc
  | succ n ih =>
      intro s hs c hc
      rw [split_text] at hc
      by_cases h : s.length ≤ cs
      · rw [dif_pos (Or.inl h)] at hc
        by_cases hnil : s.isEmpty
        · simp [hnil] at hc
        · simp [hnil] at hc
          subst hc
          exact h
      · rw [dif_neg (by omega)] at hc
        rcases List.mem_cons.mp hc with rfl | hc
        · simp [List.length_take]
        · exact ih (s.drop (cs - co)) (by simp [List.length_drop]; omega) c hc

theorem split_text_reassemble_aux (cs co : Nat) (hco : co < cs) :
    ∀ (n : Nat) (s : List Char), s.length ≤ n →
      reassemble co (split_text cs co s) = s := by
  intro n
  induction n with
  | zero =>
      intro s hs
      have hnil : s = [] := List.eq_nil_of_length_eq_zero (by omega)
      subst hnil
      rw [split_text]
      simp [reassemble]
  | succ n ih =>
      intro s hs
      rw [split_text]
      by_cases h : s.length ≤ cs
      · rw [dif_pos (Or.inl h)]
        by_cases hnil : s.isEmpty
        · rw [List.isEmpty_iff] at hnil
          subst hnil
          simp [reassemble]
        · simp [hnil, reassemble]
      · rw [dif_neg (by omega)]
        set s' := s.drop (cs - co) with hs'
        have hs'len : s'.length = s.length - (cs - co) := by
          simp [hs', List.length_drop]
        have hs'ge : co + 1 ≤ s'.length := by omega
        have hs'ne : s' ≠ [] := by
          intro hempty
          rw [hempty] at hs'len
          simp at hs'len
          omega
        have hIH : reassemble co (split_text cs co s') = s' :=
          ih s' (by omega)
        have hhead : (split_text cs co s').head? = some (s'.take cs) :=
          split_text_head cs co hco s' hs'ne
        rcases hrest : split_text cs co s' with _ | ⟨r0, rtail⟩
        · rw [hrest] at hhead
          simp at hhead
        · rw [hrest] at hhead hIH
          simp at hhead
          have hr0 : r0 = s'.take cs := hhead
          have hr0len : co ≤ r0.length := by
            rw [hr0]
            simp [List.length_take]
            omega
          simp only [reassemble, List.map_cons, List.flatten_cons] at hIH ⊢
          -- hIH : r0 ++ (rtail.map fun d => d.drop co).flatten = s'
          have hsplit : r0.take co ++ (r0.drop co ++ (rtail.map fun d => d.drop co).flatten) = s' := by
            rw [← List.append_assoc, List.take_append_drop]
            exact hIH
          have htake_len : (r0.take co).length = co := by
            simp [List.length_take]
            omega
          have hkey : r0.drop co ++ (rtail.map fun d => d.drop co).flatten = s'.drop co := by
            have h2 := congrArg (fun l => List.drop co l) hsplit
            simp only [List.drop_append_of_le_length (le_of_eq htake_len.symm)] at h2
            rwa [List.drop_eq_nil_of_le (le_of_eq htake_len), List.nil_append] at h2
          have hdropcs : s'.drop co = s.drop cs := by
            rw [hs', List.drop_drop]
            congr 1
            omega
          rw [← List.append_assoc] at *
          calc s.take cs ++ r0.drop co ++ (rtail.map fun d => d.drop co).flatten
              = s.take cs ++ (r0.drop co ++ (rtail.map fun d => d.drop co).flatten) := by
                rw [List.append_assoc]
            _ = s.take cs ++ s.drop cs := by rw [hkey, hdropcs]
            _ = s := List.take_append_drop cs s

theorem split_text_chain_aux (cs co : Nat) (hco : co < cs) :
    ∀ (n : Nat) (s : List Char), s.length ≤ n →
      List.Chain'
        (fun a b => a.length = cs ∧ a.drop (cs - co) = b.take co)
        (split_text cs co s) := by
  intro n
  induction n with
  | zero =>
      intro s hs
      have hnil : s = [] := List.eq_nil_of_length_eq_zero (by omega)
      subst hnil
      rw [split_text]
      simp
  | succ n ih =>
      intro s hs
      rw [split_text]
      by_cases h : s.length ≤ cs
      · rw [dif_pos (Or.inl h)]
        by_cases hnil : s.isEmpty
        · simp [hnil]
        · simp [hnil]
      · rw [dif_neg (by omega)]
        set s' := s.drop (cs - co) with hs'
        have hs'len : s'.length = s.length - (cs - co) := by
          simp [hs', List.length_drop]
        have hs'ne : s' ≠ [] := by
          intro hempty
          rw [hempty] at hs'len
          simp at hs'len
          omega
        refine List.chain'_cons'.mpr ⟨?_, ih s' (by omega)⟩
        intro y hy
        rw [split_text_head cs co hco s' hs'ne] at hy
        simp at hy
        subst hy
        constructor
        · simp [List.length_take]
          omega
        · rw [List.drop_take, List.take_take]
          congr 1
          omega

/-- C5: for every document and every valid parameter pair
(`chunk_size > 0`, `0 ≤ chunk_overlap < chunk_size`), the chunker's
output reassembles to the original content exactly when declared
overlaps are removed; every chunk is at most `chunk_size` long; and
every chunk but possibly the last is exactly `chunk_size` long and
shares exactly its trailing `chunk_overlap` characters with the head of
the next chunk. -/
theorem chunker_invariants (chunk_size chunk_overlap : Nat) (s : List Char)
    (_hcs : 0 < chunk_size) (hco : chunk_overlap < chunk_size) :
    reassemble chunk_overlap (split_text chunk_size chunk_overlap s) = s ∧
    (∀ c ∈ split_text chunk_size chunk_overlap s, c.length ≤ chunk_size) ∧
    List.Chain'
      (fun a b => a.length = chunk_size ∧
        a.drop (chunk_size - chunk_overlap) = b.take chunk_overlap)
      (split_text chunk_size chunk_overlap s) :=
  ⟨split_text_reassemble_aux chunk_size chunk_overlap hco s.length s le_rfl,
   split_text_length_le_aux chunk_size chunk_overlap hco s.length s le_rfl,
   split_text_chain_aux chunk_size chunk_overlap hco s.length s le_rfl⟩

/-- Witness for C5 at `chunk_size = 3`, `chunk_overlap = 1` on a
seven-character document. -/
theorem chunker_invariants_witness :
    0 < 3 ∧ 1 < 3 ∧
      (reassemble 1 (split_text 3 1 ['a', 'b', 'c', 'd', 'e', 'f', 'g'])
          = ['a', 'b', 'c', 'd', 'e', 'f', 'g'] ∧
       (∀ c ∈ split_text 3 1 ['a', 'b', 'c', 'd', 'e', 'f', 'g'],
          c.length ≤ 3) ∧
       List.Chain' (fun a b => a.length = 3 ∧ a.drop (3 - 1) = b.take 1)
         (split_text 3 1 ['a', 'b', 'c', 'd', 'e', 'f', 'g'])) :=
  ⟨by decide, by decide,
    chunker_invariants 3 1 ['a', 'b', 'c', 'd', 'e', 'f', 'g']
      (by decide) (by decide)⟩

/-! ## Index Store theorems -/

/-- C1: when the marker file is present at the persist path,
`get_vectorstore` returns the persisted index and ignores the incoming
chunks entirely: any two chunk arguments (different, or empty) give the
same outcome, the same resulting on-disk state, the same filesystem
trace, and indexes whose similarity-search results agree on every query,
every `k` and every ranking. -/
theorem reuse_persisted_index (splits1 splits2 : List Chunk) (pd : String)
    (st : PersistState) (hmarker : markerExists st = true) :
    get_vectorstore splits1 pd st = get_vectorstore splits2 pd st ∧
    ∀ (rank : String → List Chunk → List Chunk) (q : String) (k : Nat),
      (get_vectorstore splits1 pd st).1.map
          (fun c => similarity_search c rank q k)
        = (get_vectorstore splits2 pd st).1.map
          (fun c => similarity_search c rank q k) := by
  cases st with
  | absent => simp [markerExists] at hmarker
  | noMarker => simp [markerExists] at hmarker
  | corrupt => exact ⟨rfl, fun _ _ _ => rfl⟩
  | valid docs => exact ⟨rfl, fun _ _ _ => rfl⟩

/-- Witness for C1: a persisted index holding one chunk, reopened once
with an empty and once with a different non-empty chunk list. -/
theorem reuse_persisted_index_witness :
    markerExists (.valid [⟨['h', 'i'], some "data/a.txt"⟩]) = true ∧
      (get_vectorstore [] "vs" (.valid [⟨['h', 'i'], some "data/a.txt"⟩])
          = get_vectorstore [⟨['y', 'o'], none⟩] "vs"
              (.valid [⟨['h', 'i'], some "data/a.txt"⟩]) ∧
        ∀ (rank : String → List Chunk → List Chunk) (q : String) (k : Nat),
          (get_vectorstore [] "vs"
              (.valid [⟨['h', 'i'], some "data/a.txt"⟩])).1.map
              (fun c => similarity_search c rank q k)
            = (get_vectorstore [⟨['y', 'o'], none⟩] "vs"
                (.valid [⟨['h', 'i'], some "data/a.txt"⟩])).1.map
              (fun c => similarity_search c rank q k)) :=
  ⟨by decide,
    reuse_persisted_index [] [⟨['y', 'o'], none⟩] "vs"
      (.valid [⟨['h', 'i'], some "data/a.txt"⟩]) (by decide)⟩

/-- C3: calling `get_vectorstore` with no chunks when no persisted index
exists (no marker file) raises the empty-corpus error, leaves the
on-disk state unchanged, and performs no filesystem write at all. -/
theorem empty_corpus_guard (pd : String) (st : PersistState)
    (hmarker : markerExists st = false) :
    get_vectorstore [] pd st = (.error .emptyCorpus, st, []) := by
  cases st with
  | absent => rfl
  | noMarker => rfl
  | corrupt => simp [markerExists] at hmarker
  | valid docs => simp [markerExists] at hmarker

/-- Witness for C3 on a missing persist directory. -/
theorem empty_corpus_guard_witness :
    markerExists .absent = false ∧
      get_vectorstore [] "vs" .absent
        = (.error .emptyCorpus, .absent, []) :=
  ⟨by decide, empty_corpus_guard "vs" .absent (by decide)⟩

/-- C6: when the marker file is present but the persisted state is
corrupt/unreadable, `get_vectorstore` fails with the index-load error
for every incoming chunk list; it performs no filesystem operation and
leaves the state as it was, so it never silently rebuilds from the
chunks. -/
theorem corrupt_index_load_error (splits : List Chunk) (pd : String) :
    get_vectorstore splits pd .corrupt
      = (.error .indexLoadError, .corrupt, []) := rfl

/-- C4 counterexample: a concrete build (one chunk, no prior state)
produces a filesystem trace that violates the atomic-publish discipline
the claim asserts: the index is written directly at the persist path and
no rename ever publishes into it. -/
theorem atomic_publish_counterexample :
    ¬ atomicPublish
        (get_vectorstore [⟨['a'], none⟩] "vectorstore"
          PersistState.absent).2.2 "vectorstore" := by
  unfold atomicPublish
  decide

/-- C4 amended: every index build (no marker present, nonempty chunks)
writes the index directly at the persist path — after removing any
existing directory and recreating it — and performs no rename at all:
no temporary location and no atomic publish exist in the build path. -/
theorem build_writes_directly (splits : List Chunk) (pd : String)
    (st : PersistState) (hmarker : markerExists st = false)
    (hne : splits ≠ []) :
    ((get_vectorstore splits pd st).2.2.any fun op =>
        op.writesIndexAt pd) = true ∧
    ((get_vectorstore splits pd st).2.2.any fun op =>
        op.isRenameTo pd) = false ∧
    ¬ atomicPublish (get_vectorstore splits pd st).2.2 pd := by
  have hsp : splits.isEmpty = false := by
    cases splits with
    | nil => exact absurd rfl hne
    | cons a l => rfl
  cases st with
  | corrupt => simp [markerExists] at hmarker
  | valid docs => simp [markerExists] at hmarker
  | absent =>
      refine ⟨?_, ?_, ?_⟩ <;>
        simp [get_vectorstore, hsp, FsOp.writesIndexAt, FsOp.isRenameTo,
          atomicPublish]
  | noMarker =>
      refine ⟨?_, ?_, ?_⟩ <;>
        simp [get_vectorstore, hsp, FsOp.writesIndexAt, FsOp.isRenameTo,
          atomicPublish]

/-- Witness for the amended C4 on a concrete one-chunk build. -/
theorem build_writes_directly_witness :
    markerExists .absent = false ∧ ([⟨['a'], none⟩] : List Chunk) ≠ [] ∧
      (((get_vectorstore [⟨['a'], none⟩] "vs" .absent).2.2.any fun op =>
          op.writesIndexAt "vs") = true ∧
       ((get_vectorstore [⟨['a'], none⟩] "vs" .absent).2.2.any fun op =>
          op.isRenameTo "vs") = false ∧
       ¬ atomicPublish (get_vectorstore [⟨['a'], none⟩] "vs" .absent).2.2
          "vs") :=
  ⟨by decide, by decide,
    build_writes_directly [⟨['a'], none⟩] "vs" .absent
      (by decide) (by decide)⟩

/-! ## Agent answer extraction theorems -/

theorem answerScan_eq_head (l : List LCMessage) :
    answerScan l = l.head?.map LCMessage.content := by
  cases l with
  | nil => rfl
  | cons m rest => simp [answerScan, isBaseMessageWithContent]

/-- C2 counterexample: a final conversation whose last message is an
assistant message with empty content. The endpoint returns that empty
content, while the claimed rule (last assistant message with non-empty
content, else the canonical fallback) yields the earlier answer; in
particular the response is empty, which the claim rules out. -/
theorem chat_answer_counterexample :
    chatAnswer [.ai "hi", .ai ""] = "" ∧
    specDoneAnswer [.ai "hi", .ai ""] = "hi" ∧
    ("" : String) ≠ "hi" := by
  refine ⟨rfl, rfl, ?_⟩
  decide

/-- C2 amended: the endpoint returns the content of the last message of
the agent's final conversation, whatever its role and even when that
content is empty; the canonical fallback string is returned exactly when
the final conversation holds no message at all. -/
theorem chat_answer_last_message (resultMessages : List LCMessage) :
    chatAnswer resultMessages
      = (resultMessages.getLast?.map LCMessage.content).getD
          fallbackAnswer := by
  unfold chatAnswer
  rw [answerScan_eq_head, List.head?_reverse]
  cases resultMessages.getLast? with
  | none => rfl
  | some m => rfl

/-! ## Retrieval Tool theorems -/

/-- C7: when search returns zero results, `retrieve_documents` returns
exactly the canonical "no relevant documents found" sentinel, which is
not the empty string. -/
theorem no_results_sentinel_returned (retriever : String → List Chunk)
    (q : String) (hempty : retriever q = []) :
    retrieve_documents retriever q = noResultsSentinel ∧
      noResultsSentinel ≠ "" := by
  constructor
  · simp [retrieve_documents, hempty]
  · decide

/-- Witness for C7 on a retriever with an empty index. -/
theorem no_results_sentinel_returned_witness :
    (fun _ : String => ([] : List Chunk)) "anything" = [] ∧
      (retrieve_documents (fun _ => []) "anything" = noResultsSentinel ∧
        noResultsSentinel ≠ "") :=
  ⟨rfl, no_results_sentinel_returned (fun _ => []) "anything" rfl⟩

theorem foldl_append_singleton {α β : Type} (f : α → β) :
    ∀ (l : List α) (init : List β),
      l.foldl (fun acc d => acc ++ [f d]) init = init ++ l.map f := by
  intro l
  induction l with
  | nil => intro init; simp
  | cons x xs ih =>
      intro init
      simp only [List.foldl_cons, List.map_cons]
      rw [ih]
      simp

/-- C8: on a non-empty result list, `retrieve_documents` returns the
blocks "Source: basename.../---/raw chunk text", one per result in
search-result order, joined by the blank-line separator. -/
theorem retrieval_formatting (retriever : String → List Chunk)
    (q : String) (hne : retriever q ≠ []) :
    retrieve_documents retriever q
      = String.intercalate "\n\n"
          ((retriever q).map fun doc =>
            "Source: " ++ basename (doc.source.getD "N/A") ++ "\n---\n"
              ++ String.mk doc.page_content) := by
  unfold retrieve_documents
  rw [if_neg (by simpa using hne)]
  rw [foldl_append_singleton formatBlock (retriever q) []]
  rfl

/-- Witness for C8 on a two-result retriever. -/
theorem retrieval_formatting_witness :
    (fun _ : String =>
        [(⟨['h', 'i'], some "data/a.txt"⟩ : Chunk), ⟨['y', 'o'], none⟩])
      "q" ≠ [] ∧
    retrieve_documents
        (fun _ => [⟨['h', 'i'], some "data/a.txt"⟩, ⟨['y', 'o'], none⟩]) "q"
      = String.intercalate "\n\n"
          (([(⟨['h', 'i'], some "data/a.txt"⟩ : Chunk),
              ⟨['y', 'o'], none⟩]).map fun doc =>
            "Source: " ++ basename (doc.source.getD "N/A") ++ "\n---\n"
              ++ String.mk doc.page_content) :=
  ⟨by decide,
    retrieval_formatting
      (fun _ => [⟨['h', 'i'], some "data/a.txt"⟩, ⟨['y', 'o'], none⟩]) "q"
      (by decide)⟩

/-! ## Request conversion theorems -/

theorem convert_foldl_go :
    ∀ (l : List ChatMessage) (init : List LCMessage),
      l.foldl convertStep init = init ++ l.filterMap convertOne := by
  intro l
  induction l with
  | nil => intro init; simp
  | cons m rest ih =>
      intro init
      simp only [List.foldl_cons, List.filterMap_cons]
      rw [ih]
      unfold convertStep convertOne
      by_cases h1 : m.role = "user"
      · simp [h1]
      · by_cases h2 : m.role = "assistant"
        · simp [h1, h2]
        · simp [h1, h2]

/-- C10: converting an inbound request to the agent's conversation maps
each `user`/`assistant` message to its LangChain counterpart in order
and silently drops every message of any other role: the conversion is
the order-preserving `filterMap` of the per-message conversion, and
removing an other-role message from anywhere in the request leaves the
conversation unchanged. The conversion is total — no error is raised. -/
theorem non_user_assistant_dropped (msgs a b : List ChatMessage)
    (m : ChatMessage) (h1 : m.role ≠ "user") (h2 : m.role ≠ "assistant") :
    convertMessages msgs = msgs.filterMap convertOne ∧
    convertMessages (a ++ m :: b) = convertMessages (a ++ b) := by
  constructor
  · unfold convertMessages
    rw [convert_foldl_go]
    simp
  · unfold convertMessages
    rw [convert_foldl_go, convert_foldl_go]
    simp [List.filterMap_append, List.filterMap_cons, convertOne, h1, h2]

/-- Witness for C10: a `system` message between a user and an assistant
message produces no conversation entry. -/
theorem non_user_assistant_dropped_witness :
    (ChatMessage.mk "system" "sys").role ≠ "user" ∧
    (ChatMessage.mk "system" "sys").role ≠ "assistant" ∧
    (convertMessages [⟨"user", "hello"⟩]
        = [⟨"user", "hello"⟩].filterMap convertOne ∧
      convertMessages
          ([⟨"user", "hi"⟩] ++ (⟨"system", "sys"⟩ : ChatMessage)
            :: [⟨"assistant", "ok"⟩])
        = convertMessages ([⟨"user", "hi"⟩] ++ [⟨"assistant", "ok"⟩])) :=
  ⟨by decide, by decide,
    non_user_assistant_dropped [⟨"user", "hello"⟩] [⟨"user", "hi"⟩]
      [⟨"assistant", "ok"⟩] ⟨"system", "sys"⟩ (by decide) (by decide)⟩

/-! ## Ingestion theorems -/

theorem ingest_foldl_go (folder : String) :
    ∀ (fs : List RawFile) (init : List SourceDoc × List String),
      fs.foldl (ingestStep folder) init
        = (init.1 ++ (ingestFiles folder fs).1,
           init.2 ++ (ingestFiles folder fs).2) := by
  intro fs
  induction fs with
  | nil => intro init; simp [ingestFiles]
  | cons f rest ih =>
      intro init
      have hunf : ingestFiles folder (f :: rest)
          = rest.foldl (ingestStep folder) (ingestStep folder ([], []) f) := by
        simp only [ingestFiles, List.foldl_cons]
      rw [List.foldl_cons, hunf, ih (ingestStep folder init f),
        ih (ingestStep folder ([], []) f)]
      unfold ingestStep
      by_cases htxt : strEndsWith f.name ".txt"
      · cases hc : f.content with
        | some c => simp [htxt, hc]
        | none => simp [htxt, hc]
      · simp [htxt]

theorem ingestFiles_append (folder : String) (a b : List RawFile) :
    ingestFiles folder (a ++ b)
      = ((ingestFiles folder a).1 ++ (ingestFiles folder b).1,
         (ingestFiles folder a).2 ++ (ingestFiles folder b).2) := by
  have h1 : ingestFiles folder (a ++ b)
      = b.foldl (ingestStep folder) (ingestFiles folder a) := by
    simp [ingestFiles, List.foldl_append]
  rw [h1, ingest_foldl_go]

theorem ingestFiles_cons (folder : String) (f : RawFile)
    (fs : List RawFile) :
    ingestFiles folder (f :: fs)
      = ((ingestStep folder ([], []) f).1 ++ (ingestFiles folder fs).1,
         (ingestStep folder ([], []) f).2 ++ (ingestFiles folder fs).2) := by
  have h1 : ingestFiles folder (f :: fs)
      = fs.foldl (ingestStep folder) (ingestStep folder ([], []) f) := by
    simp only [ingestFiles, List.foldl_cons]
  rw [h1, ingest_foldl_go]

theorem readable_txt_mem_ingest (folder : String) :
    ∀ (fs : List RawFile) (f : RawFile), f ∈ fs →
      strEndsWith f.name ".txt" = true → ∀ c, f.content = some c →
      (⟨c, folder ++ "/" ++ f.name⟩ : SourceDoc)
        ∈ (ingestFiles folder fs).1 := by
  intro fs
  induction fs with
  | nil =>
      intro f hf
      simp at hf
  | cons g rest ih =>
      intro f hf htxt c hc
      rw [ingestFiles_cons]
      rcases List.mem_cons.mp hf with rfl | hf
      · have hstep : (ingestStep folder ([], []) f).1
            = [⟨c, folder ++ "/" ++ f.name⟩] := by
          simp [ingestStep, htxt, hc]
        exact List.mem_append.mpr (Or.inl (by rw [hstep]; exact List.mem_singleton.mpr rfl))
      · exact List.mem_append.mpr (Or.inr (ih f hf htxt c hc))

/-- C9: an unreadable `.txt` file (I/O failure on open/read) is skipped
with a recorded warning and does not abort the ingestion pass: the
loaded documents are exactly those of the same pass without the bad
file, the warning message for the bad file is recorded, every remaining
readable `.txt` file still yields its document, and the pass still
chunks all loaded documents. -/
theorem unreadable_file_skipped (folder : String) (pre post : List RawFile)
    (bad : RawFile) (chunk_size chunk_overlap : Nat)
    (htxt : strEndsWith bad.name ".txt" = true) (hbad : bad.content = none) :
    (ingestFiles folder (pre ++ bad :: post)).1
        = (ingestFiles folder (pre ++ post)).1 ∧
    ("Error reading file " ++ folder ++ "/" ++ bad.name)
        ∈ (ingestFiles folder (pre ++ bad :: post)).2 ∧
    (∀ f ∈ pre ++ post, strEndsWith f.name ".txt" = true →
      ∀ c, f.content = some c →
        (⟨c, folder ++ "/" ++ f.name⟩ : SourceDoc)
          ∈ (ingestFiles folder (pre ++ bad :: post)).1) ∧
    load_and_process_documents folder (some (pre ++ bad :: post))
        chunk_size chunk_overlap
      = split_documents chunk_size chunk_overlap
          (ingestFiles folder (pre ++ post)).1 := by
  have hbadstep : ingestStep folder ([], []) bad
      = ([], ["Error reading file " ++ folder ++ "/" ++ bad.name]) := by
    simp [ingestStep, htxt, hbad]
  have hdocs : (ingestFiles folder (pre ++ bad :: post)).1
      = (ingestFiles folder (pre ++ post)).1 := by
    rw [ingestFiles_append, ingestFiles_cons, ingestFiles_append, hbadstep]
    simp
  refine ⟨hdocs, ?_, ?_, ?_⟩
  · rw [ingestFiles_append, ingestFiles_cons, hbadstep]
    simp
  · intro f hf htxt' c hc
    have hmem : f ∈ pre ++ bad :: post := by
      rcases List.mem_append.mp hf with h | h
      · exact List.mem_append.mpr (Or.inl h)
      · exact List.mem_append.mpr (Or.inr (List.mem_cons_of_mem _ h))
    exact readable_txt_mem_ingest folder _ f hmem htxt' c hc
  · have hfsne : (pre ++ bad :: post).isEmpty = false := by
      simp
    unfold load_and_process_documents
    simp only [hfsne, Bool.false_eq_true, if_false, hdocs]
    by_cases hde : ((ingestFiles folder (pre ++ post)).1).isEmpty
    · rw [if_pos hde]
      rw [List.isEmpty_iff] at hde
      rw [hde]
      rfl
    · rw [if_neg hde]

/-- Witness for C9: one unreadable `.txt` file between two readable
ones. -/
theorem unreadable_file_skipped_witness :
    strEndsWith "bad.txt" ".txt" = true ∧
    (RawFile.mk "bad.txt" none).content = none ∧
    ((ingestFiles "data"
          ([⟨"a.txt", some ['A']⟩] ++ (⟨"bad.txt", none⟩ : RawFile)
            :: [⟨"b.txt", some ['B']⟩])).1
        = (ingestFiles "data"
            ([⟨"a.txt", some ['A']⟩] ++ [⟨"b.txt", some ['B']⟩])).1 ∧
      ("Error reading file " ++ "data" ++ "/" ++ "bad.txt")
        ∈ (ingestFiles "data"
            ([⟨"a.txt", some ['A']⟩] ++ (⟨"bad.txt", none⟩ : RawFile)
              :: [⟨"b.txt", some ['B']⟩])).2 ∧
      (∀ f ∈ [⟨"a.txt", some ['A']⟩] ++ [(⟨"b.txt", some ['B']⟩ : RawFile)],
        strEndsWith f.name ".txt" = true → ∀ c, f.content = some c →
          (⟨c, "data" ++ "/" ++ f.name⟩ : SourceDoc)
            ∈ (ingestFiles "data"
                ([⟨"a.txt", some ['A']⟩] ++ (⟨"bad.txt", none⟩ : RawFile)
                  :: [⟨"b.txt", some ['B']⟩])).1) ∧
      load_and_process_documents "data"
          (some ([⟨"a.txt", some ['A']⟩] ++ (⟨"bad.txt", none⟩ : RawFile)
            :: [⟨"b.txt", some ['B']⟩])) 30 5
        = split_documents 30 5
            (ingestFiles "data"
              ([⟨"a.txt", some ['A']⟩] ++ [⟨"b.txt", some ['B']⟩])).1) :=
  ⟨by decide, rfl,
    unreadable_file_skipped "data" [⟨"a.txt", some ['A']⟩]
      [⟨"b.txt", some ['B']⟩] ⟨"bad.txt", none⟩ 30 5 (by decide) rfl⟩

end ChatbotCore
